import Mathlib

/-!
Shallow embedding of the BPMN parsing core of `src/app.py` (the pure function
`parse_bpmn_xml` together with its nested recursive helper `traverse_flow`),
and verification of the frozen claims about it.

Modelling conventions, matching the Python source:
* An `xml.etree.ElementTree` element is modelled by the inductive `XML`
  (namespace URI, local tag name, attribute list, text, children).
  `element.get(a)` is attribute lookup returning `Option String`;
  `find`/`findall` with a `'pfx:name'` path resolve the namespace through the
  `NS` table exactly as ElementTree does, searching direct children, and
  `'.//pfx:name'` paths search all descendants in document order.
* A Python `dict` (insertion ordered, assignment to an existing key keeps its
  position) is modelled by an association list `List (String × α)` mutated
  through `dinsert`; a Python `set` is used in the source only through
  membership tests and set difference, modelled by filtered key lists, so
  everything order-relevant stays faithful and set iteration order (which
  CPython leaves unspecified for strings) is never baked into a theorem.
* The `ET.fromstring`/`ET.ParseError` step happens in the standard library,
  outside this repository, so `parse_bpmn_xml` takes the loader's outcome as
  an `Except String XML` input: `.error msg` is a raised `ParseError` whose
  message is `msg`, `.ok root` is a successfully parsed document.
* The Python function returns a `(json_dict, status_code)` pair; this is
  modelled as `Except String BpmnResult × Nat` where the `.error` branch is
  the `{'error': ...}` dictionary.
* The fields `pools`, `data_stores`, `data_objects` and `annotations` of the
  result are not modelled: no claim mentions them and the code computing them
  writes to no other field.
* The recursion of `traverse_flow` is made total with a fuel argument; the
  fuel `elements.length + 1` used by the embedding is proved never to be
  exhausted (the fuel-independence part of the C1 theorem), which is exactly
  the termination argument for the Python recursion.
-/

/-- Association-list lookup, modelling Python `d.get(k)` / `d[k]`. -/
def alookup {α : Type} : List (String × α) → String → Option α
  | [], _ => none
  | (k', v) :: rest, k => if k' == k then some v else alookup rest k

/-- Association-list insertion modelling Python `d[k] = v` on an
insertion-ordered `dict`: an existing key keeps its position and gets the new
value, a new key is appended at the end. -/
def dinsert {α : Type} : List (String × α) → String → α → List (String × α)
  | [], k, v => [(k, v)]
  | (k', v') :: rest, k, v =>
    if k' == k then (k, v) :: rest else (k', v') :: dinsert rest k v

/-- Keys of an association list, in order (Python `d.keys()`). -/
def akeys {α : Type} (l : List (String × α)) : List String := l.map Prod.fst

/-- An `xml.etree.ElementTree` element: namespace URI, local tag name,
attributes, text, children. ElementTree stores the qualified tag as the URI
and local name combined; keeping them as two fields avoids nothing and adds
nothing semantically. -/
inductive XML where
  | mk (tagNS tagName : String) (attrs : List (String × String))
       (text : Option String) (children : List XML)

/-- Namespace URI part of the tag. -/
def XML.tagNS : XML → String
  | .mk ns _ _ _ _ => ns

/-- Local part of the tag. -/
def XML.tagName : XML → String
  | .mk _ n _ _ _ => n

/-- Attribute list. -/
def XML.attrs : XML → List (String × String)
  | .mk _ _ a _ _ => a

/-- The `.text` of an element (`None` or a string). -/
def XML.text : XML → Option String
  | .mk _ _ _ t _ => t

/-- Child elements, in document order. -/
def XML.children : XML → List XML
  | .mk _ _ _ _ c => c

/-- Python `element.get(name)`: attribute lookup. -/
def XML.get (x : XML) (a : String) : Option String := alookup x.attrs a

/-- Python `element.get(name, default)`. -/
def XML.getAttrD (x : XML) (a d : String) : String := (x.get a).getD d

/-- The BPMN 2.0 MODEL namespace URI. -/
def MODEL_URI : String := "http://www.omg.org/spec/BPMN/20100524/MODEL"

/-- The `NS` table of `src/app.py`: note that `bpmn` and `bpmn2` are bound to
the same URI. -/
def NS : List (String × String) :=
  [("bpmn", MODEL_URI),
   ("bpmn2", MODEL_URI),
   ("bpmndi", "http://www.omg.org/spec/BPMN/20100524/DI"),
   ("dc", "http://www.omg.org/spec/DD/20100524/DC"),
   ("di", "http://www.omg.org/spec/DD/20100524/DI"),
   ("camunda", "http://camunda.org/schema/1.0/bpmn"),
   ("xsi", "http://www.w3.org/2001/XMLSchema-instance")]

/-- Resolve a namespace alias through `NS`, as ElementTree does with a
`'pfx:name'` path. -/
def nsOf (pfx : String) : String := (alookup NS pfx).getD ""

/-- Does the element carry the given fully resolved tag? -/
def XML.hasTag (x : XML) (ns nm : String) : Bool :=
  x.tagNS == ns && x.tagName == nm

mutual
/-- All proper descendants of an element in document order (what a `'.//'`
path iterates over; the element itself is excluded). -/
def descendants : XML → List XML
  | .mk _ _ _ _ cs => descList cs

/-- Descendant closure of a list of siblings, in document order. -/
def descList : List XML → List XML
  | [] => []
  | c :: cs => c :: (descendants c ++ descList cs)
end

/-- Python `element.findall('.//pfx:nm', NS)`: all descendants with the
resolved tag, in document order. -/
def findall (pfx nm : String) (x : XML) : List XML :=
  (descendants x).filter (fun c => c.hasTag (nsOf pfx) nm)

/-- Python `element.findall('pfx:nm', NS)`: matching direct children. -/
def findChildren (pfx nm : String) (x : XML) : List XML :=
  x.children.filter (fun c => c.hasTag (nsOf pfx) nm)

/-- Python `element.find('.//pfx:nm', NS)`: first matching descendant. -/
def findDeep (pfx nm : String) (x : XML) : Option XML :=
  (findall pfx nm x).head?

/-- Python `element.find('pfx:nm', NS)`: first matching direct child. -/
def findChild (pfx nm : String) (x : XML) : Option XML :=
  (findChildren pfx nm x).head?

/-- Python `str.strip()` (with the ASCII whitespace characters the inputs at
hand can contain). -/
def pyStrip (s : String) : String :=
  ⟨(((s.data.dropWhile Char.isWhitespace).reverse).dropWhile Char.isWhitespace).reverse⟩

/-- Python `str.lower()` restricted to ASCII letters, all the source compares
it against is the ASCII literal `'true'`. -/
def pyLower (s : String) : String := ⟨s.data.map Char.toLower⟩

/-- Helper for `pyReplace`: replace every occurrence of `pat` (non-empty) in
the character list, with enough fuel to consume the whole input. -/
def replaceFuel (pat repl : List Char) : Nat → List Char → List Char
  | _, [] => []
  | 0, s => s
  | fuel + 1, c :: rest =>
    if pat.isPrefixOf (c :: rest) && !pat.isEmpty then
      repl ++ replaceFuel pat repl fuel (List.drop (pat.length - 1) rest)
    else c :: replaceFuel pat repl fuel rest

/-- Python `s.replace(pat, repl)` for a non-empty pattern. -/
def pyReplace (s pat repl : String) : String :=
  ⟨replaceFuel pat.data repl.data s.data.length s.data⟩

/-- Python `a or b` where `a` is an `Element` or `None`: an `Element` is falsy
exactly when it has no children (ElementTree's deprecated `__bool__` is
`len(children) > 0`). -/
def pyOrElem (a b : Option XML) : Option XML :=
  match a with
  | none => b
  | some e => if e.children.isEmpty then b else some e

/-- Python `a or b` on strings: the empty string is falsy. -/
def pyOrStr (a b : String) : String := if a == "" then b else a

/-- The pattern `found.text.strip() if found is not None and found.text else ''`
from `src/app.py`. -/
def textOrEmpty (o : Option XML) : String :=
  match o with
  | none => ""
  | some x =>
    match x.text with
    | none => ""
    | some t => if t == "" then "" else pyStrip t

/-- `safe_find_text` of `src/app.py`, for a direct-child path `'pfx:nm'`. -/
def safe_find_text (e : XML) (pfx nm : String) : String :=
  textOrEmpty (findChild pfx nm e)

/-- `extract_documentation` of `src/app.py`: try `bpmn:documentation`, then
`bpmn2:documentation`, then the text pattern. -/
def extract_documentation (e : XML) : String :=
  let d := match findChild "bpmn" "documentation" e with
           | some x => some x
           | none => findChild "bpmn2" "documentation" e
  textOrEmpty d

/-- An entry of `result['elements']`. -/
structure Element where
  type : String
  name : String
  documentation : String
  process : Option String
  /-- The optional `'eventDefinitions'` key; the source only stores it when
  the collected list is non-empty, so the empty list models the absent key. -/
  eventDefinitions : List String
deriving DecidableEq

/-- An entry of `result['flows']`. -/
structure SeqFlow where
  name : String
  source : Option String
  target : Option String
  condition : String
  process : Option String
deriving DecidableEq

/-- An entry of `result['data_associations']`. Input records carry a
`'target'` key and output records a `'source'` key; the `Option` fields model
key presence. -/
structure DataAssoc where
  type : String
  fromRef : String
  toRef : String
  target : Option String
  source : Option String
deriving DecidableEq

/-- An entry of `result['processes']`. -/
structure ProcInfo where
  id : Option String
  name : String
  documentation : String
deriving DecidableEq

/-- An entry of `result['flow_order']`. -/
structure FlowEntry where
  id : String
  name : String
  type : String
  actor : String
  path : List String
  documentation : String
  /-- Optional key, present in the source dict iff non-empty (it is copied
  from the element's equally-modelled optional key). -/
  eventDefinitions : List String
deriving DecidableEq

/-- An entry of `result['warnings']`. -/
structure Warning where
  type : String
  message : String
  elements : List String
deriving DecidableEq

/-- The success dictionary of `parse_bpmn_xml` (without the fields no claim
mentions, see the module docstring). -/
structure BpmnResult where
  title : String
  objective : String
  elements : List (String × Element)
  flows : List (String × SeqFlow)
  lanes : List (String × String)
  data_associations : List DataAssoc
  flow_order : List FlowEntry
  warnings : List Warning
  processes : List ProcInfo
deriving DecidableEq

/-- The `element_types` list of `src/app.py`, in source order. -/
def element_types : List String :=
  ["startEvent", "endEvent", "intermediateThrowEvent", "intermediateCatchEvent",
   "boundaryEvent", "task", "userTask", "serviceTask", "manualTask",
   "scriptTask", "businessRuleTask", "sendTask", "receiveTask",
   "exclusiveGateway", "parallelGateway", "inclusiveGateway",
   "eventBasedGateway", "complexGateway", "subProcess", "callActivity"]

/-- The event-definition child tags scanned by the element extractor. -/
def event_def_types : List String :=
  ["messageEventDefinition", "timerEventDefinition", "errorEventDefinition",
   "signalEventDefinition", "conditionalEventDefinition", "linkEventDefinition"]

/-- The `event_defs` accumulation of the element extractor: for each
event-definition tag with a direct child under either alias, append the tag
with the `EventDefinition` suffix removed. -/
def eventDefs (e : XML) : List String :=
  event_def_types.foldl
    (fun acc t =>
      if (findChild "bpmn" t e).isSome || (findChild "bpmn2" t e).isSome
      then acc ++ [pyReplace t "EventDefinition" ""]
      else acc)
    []

/-- The process filter of `parse_bpmn_xml`: keep a process iff
`isExecutable` (default `'false'`) lowercases to `'true'`, or some enumerated
flow-node tag occurs anywhere beneath it (first hit breaks the loop, i.e.
`any`). -/
def keepsProcess (proc : XML) : Bool :=
  let is_executable := pyLower (proc.getAttrD "isExecutable" "false") == "true"
  let has_elements := element_types.any (fun t =>
    (findDeep "bpmn" t proc).isSome || (findDeep "bpmn2" t proc).isSome)
  is_executable || has_elements

/-- `root.findall('.//bpmn:process', NS) + root.findall('.//bpmn2:process', NS)`. -/
def findProcesses (root : XML) : List XML :=
  findall "bpmn" "process" root ++ findall "bpmn2" "process" root

/-- The `valid_processes` list of `parse_bpmn_xml`. -/
def validProcesses (root : XML) : List XML :=
  (findProcesses root).filter keepsProcess

/-- Lane extraction for one process: deep `laneSet` search, direct `lane` and
`flowNodeRef` children, `lanes[node_id] = lane_name` for truthy text. -/
def extractLanesProc (ls0 : List (String × String)) (p : XML) : List (String × String) :=
  ((findall "bpmn" "laneSet" p) ++ (findall "bpmn2" "laneSet" p)).foldl
    (fun ls lane_set =>
      ((findChildren "bpmn" "lane" lane_set) ++ (findChildren "bpmn2" "lane" lane_set)).foldl
        (fun ls lane =>
          let lane_name := lane.getAttrD "name" "Unnamed Lane"
          ((findChildren "bpmn" "flowNodeRef" lane) ++ (findChildren "bpmn2" "flowNodeRef" lane)).foldl
            (fun ls fr =>
              match fr.text with
              | some node_id => if node_id == "" then ls else dinsert ls node_id lane_name
              | none => ls)
            ls)
        ls)
    ls0

/-- The body of the element-extraction loop for one found element: skip it
when `elem.get('id')` is falsy (missing or empty), otherwise store the record
under its id. -/
def elemStep (pid : Option String) (ty : String)
    (m : List (String × Element)) (e : XML) : List (String × Element) :=
  match e.get "id" with
  | none => m
  | some elem_id =>
    if elem_id == "" then m
    else
      dinsert m elem_id
        { type := ty
          name := e.getAttrD "name" ""
          documentation := extract_documentation e
          process := pid
          eventDefinitions := eventDefs e }

/-- Element extraction for one process: for each enumerated tag, deep-search
under both aliases and run `elemStep` on every hit. -/
def extractElementsProc (m0 : List (String × Element)) (p : XML) : List (String × Element) :=
  let pid := p.get "id"
  element_types.foldl
    (fun m ty =>
      ((findall "bpmn" ty p) ++ (findall "bpmn2" ty p)).foldl (elemStep pid ty) m)
    m0

/-- The body of the sequence-flow loop for one found flow: skip on falsy id,
otherwise store name, `sourceRef`, `targetRef`, condition text and owning
process. The condition is read through the Python `or` chain on the two
`conditionExpression` finds and the text pattern. -/
def flowStep (pid : Option String)
    (m : List (String × SeqFlow)) (fl : XML) : List (String × SeqFlow) :=
  match fl.get "id" with
  | none => m
  | some flow_id =>
    if flow_id == "" then m
    else
      let condition := pyOrElem (findChild "bpmn" "conditionExpression" fl)
                                (findChild "bpmn2" "conditionExpression" fl)
      dinsert m flow_id
        { name := fl.getAttrD "name" ""
          source := fl.get "sourceRef"
          target := fl.get "targetRef"
          condition := textOrEmpty condition
          process := pid }

/-- Sequence-flow extraction for one process (deep search, both aliases). -/
def extractFlowsProc (m0 : List (String × SeqFlow)) (p : XML) : List (String × SeqFlow) :=
  let pid := p.get "id"
  ((findall "bpmn" "sequenceFlow" p) ++ (findall "bpmn2" "sequenceFlow" p)).foldl
    (flowStep pid) m0

/-- The records appended for one `dataInputAssociation` under an id-bearing
element: one input record when the `sourceRef` text is non-empty. -/
def inputAssocRecs (task_id : String) (a : XML) : List DataAssoc :=
  let source_ref := pyOrStr (safe_find_text a "bpmn" "sourceRef")
                            (safe_find_text a "bpmn2" "sourceRef")
  let target_ref := pyOrStr (safe_find_text a "bpmn" "targetRef")
                            (safe_find_text a "bpmn2" "targetRef")
  if source_ref == "" then []
  else [{ type := "input", fromRef := source_ref, toRef := task_id,
          target := some target_ref, source := none }]

/-- The records appended for one `dataOutputAssociation` under an id-bearing
element: one output record when the `targetRef` text is non-empty. -/
def outputAssocRecs (task_id : String) (a : XML) : List DataAssoc :=
  let source_ref := pyOrStr (safe_find_text a "bpmn" "sourceRef")
                            (safe_find_text a "bpmn2" "sourceRef")
  let target_ref := pyOrStr (safe_find_text a "bpmn" "targetRef")
                            (safe_find_text a "bpmn2" "targetRef")
  if target_ref == "" then []
  else [{ type := "output", fromRef := task_id, toRef := target_ref,
          target := none, source := some source_ref }]

/-- Data-association extraction for one id-bearing element: all input
associations first (deep search under both aliases), then all output
associations. -/
def taskAssocs (task_elem : XML) : List DataAssoc :=
  let task_id := (task_elem.get "id").getD ""
  (((findall "bpmn" "dataInputAssociation" task_elem)
      ++ (findall "bpmn2" "dataInputAssociation" task_elem)).foldl
    (fun acc a => acc ++ inputAssocRecs task_id a) [])
  ++ (((findall "bpmn" "dataOutputAssociation" task_elem)
      ++ (findall "bpmn2" "dataOutputAssociation" task_elem)).foldl
    (fun acc a => acc ++ outputAssocRecs task_id a) [])

/-- Python `process.findall('.//*[@id]', NS)`: all descendants carrying an
`id` attribute (present even when empty). -/
def idBearing (p : XML) : List XML :=
  (descendants p).filter (fun e => (e.get "id").isSome)

/-- Data-association extraction for one process. -/
def procAssocs (p : XML) : List DataAssoc :=
  (idBearing p).foldl (fun acc t => acc ++ taskAssocs t) []

/-- One entry of `result['processes']`; the default name depends on the
enumeration index. -/
def procEntry (idx : Nat) (p : XML) : ProcInfo :=
  { id := p.get "id"
    name := p.getAttrD "name" ("Process " ++ toString (idx + 1))
    documentation := extract_documentation p }

/-- The `result['processes']` accumulation: `enumerate(processes)` feeding
`procEntry`. -/
def procEntries : Nat → List XML → List ProcInfo
  | _, [] => []
  | i, p :: rest => procEntry i p :: procEntries (i + 1) rest

/-- State threaded through the traversal: the shared `visited` set (a list
used only through membership) and the accumulated `flow_order`. -/
abbrev TravSt := List String × List FlowEntry

/-- The nested recursive `traverse_flow` of `parse_bpmn_xml`, made total by a
fuel argument (the Python recursion terminates because `visited` grows; the
C1 theorem proves the fuel used below is never exhausted). The traversal is
called with a possibly missing element id because `flow.get('targetRef')` can
be `None`, which is never a key of `elements` and returns immediately. -/
def traverse_flow (es : List (String × Element)) (fs : List (String × SeqFlow))
    (ls : List (String × String)) :
    Nat → Option String → List String → TravSt → TravSt
  | 0, _, _, st => st
  | fuel + 1, eo, path, st =>
    match eo with
    | none => st
    | some elem_id =>
      if st.1.contains elem_id then st
      else
        match alookup es elem_id with
        | none => st
        | some elem =>
          let visited := elem_id :: st.1
          let entry : FlowEntry :=
            { id := elem_id
              name := elem.name
              type := elem.type
              actor := (alookup ls elem_id).getD "N/A"
              path := path
              documentation := elem.documentation
              eventDefinitions := elem.eventDefinitions }
          let order := st.2 ++ [entry]
          let outgoing := (fs.filter (fun pr => pr.2.source == some elem_id)).map Prod.fst
          outgoing.foldl
            (fun st' fid =>
              match alookup fs fid with
              | some fl => traverse_flow es fs ls fuel fl.target (path ++ [fid]) st'
              | none => st')
            (visited, order)

/-- The loop `for start_id in start_events: traverse_flow(start_id)`: one
fresh empty path per root, one shared visited set and output list. -/
def traverse_roots (es : List (String × Element)) (fs : List (String × SeqFlow))
    (ls : List (String × String)) : List String → TravSt → TravSt
  | [], st => st
  | s :: rest, st =>
    traverse_roots es fs ls rest (traverse_flow es fs ls (es.length + 1) (some s) [] st)

/-- The `start_events` comprehension: ids of elements of type `startEvent`,
in element-map order. -/
def startEventIds (es : List (String × Element)) : List String :=
  (es.filter (fun pr => pr.2.type == "startEvent")).map Prod.fst

/-- The `result['flow_order']` computation (empty when there is no start
event). -/
def build_flow_order (es : List (String × Element)) (fs : List (String × SeqFlow))
    (ls : List (String × String)) : List FlowEntry :=
  let start_events := startEventIds es
  if start_events.isEmpty then []
  else (traverse_roots es fs ls start_events ([], [])).2

/-- `set(result['elements'].keys()) - connected` where `connected` collects
every flow's source and target: the element ids no flow touches, in
element-map key order. -/
def disconnectedIds (es : List (String × Element)) (fs : List (String × SeqFlow)) :
    List String :=
  (akeys es).filter (fun k =>
    !(fs.any (fun pr => pr.2.source == some k || pr.2.target == some k)))

/-- `set(result['elements'].keys()) - set(result['lanes'].keys())`, in
element-map key order. -/
def unassignedIds (es : List (String × Element)) (ls : List (String × String)) :
    List String :=
  (akeys es).filter (fun k => !(ls.any (fun pr => pr.1 == k)))

/-- Assembly of the success dictionary from the kept-process list, fusing the
per-process loop of the source into one fold per result field (the loop body
writes each field independently of the others). -/
def buildResult (procs : List XML) : BpmnResult :=
  let title := match procs with
               | [] => ""
               | p :: _ => p.getAttrD "name" "Unnamed Process"
  let objective := match procs with
                   | [] => ""
                   | p :: _ => extract_documentation p
  let lanes := procs.foldl extractLanesProc []
  let elements := procs.foldl extractElementsProc []
  let flows := procs.foldl extractFlowsProc []
  let data_associations := procs.foldl (fun acc p => acc ++ procAssocs p) []
  let processes := procEntries 0 procs
  let flow_order := build_flow_order elements flows lanes
  let disconnected := disconnectedIds elements flows
  let unassigned := unassignedIds elements lanes
  let warnings :=
    (if disconnected.isEmpty then []
     else [({ type := "disconnected_elements"
              message := toString disconnected.length ++ " element(s) are not connected to any flow"
              elements := disconnected } : Warning)])
    ++ (if unassigned.isEmpty then []
        else [({ type := "unassigned_lanes"
                 message := toString unassigned.length ++ " element(s) are not assigned to any lane/pool"
                 elements := unassigned } : Warning)])
  { title := title, objective := objective, elements := elements, flows := flows,
    lanes := lanes, data_associations := data_associations, flow_order := flow_order,
    warnings := warnings, processes := processes }

/-- `parse_bpmn_xml` of `src/app.py` over the loader's outcome: the
`ET.ParseError` short-circuit, the no-process and no-valid-process errors,
and otherwise the assembled result with status 200. -/
def parse_bpmn_xml (inp : Except String XML) : Except String BpmnResult × Nat :=
  match inp with
  | .error e => (.error ("XML parsing error: " ++ e), 400)
  | .ok root =>
    if (findProcesses root).isEmpty then
      (.error "No BPMN process found in XML", 400)
    else
      let valid := validProcesses root
      if valid.isEmpty then
        (.error "No valid BPMN process with content found in XML", 400)
      else (.ok (buildResult valid), 200)

/-- The all-empty success dictionary (only a `getD` default below). -/
def emptyResult : BpmnResult :=
  { title := "", objective := "", elements := [], flows := [], lanes := [],
    data_associations := [], flow_order := [], warnings := [], processes := [] }

/-- Projection to the success dictionary of a response, if any. -/
def respResult : Except String BpmnResult × Nat → Option BpmnResult
  | (.ok r, _) => some r
  | _ => none

/-- The success dictionary produced for a well-formed document (defaulting to
`emptyResult` on an error response); used to state closed theorems about
concrete documents. -/
def resultOf (root : XML) : BpmnResult :=
  (respResult (parse_bpmn_xml (.ok root))).getD emptyResult

/-- Build a MODEL-namespace element without text. -/
def mel (nm : String) (attrs : List (String × String)) (children : List XML) : XML :=
  .mk MODEL_URI nm attrs none children

/-- Build a MODEL-namespace element with text. -/
def melT (nm : String) (attrs : List (String × String)) (txt : String)
    (children : List XML) : XML :=
  .mk MODEL_URI nm attrs (some txt) children

/-- The concrete document of the C2 scenario: start event `S`, task `T`, end
event `E`, flows `f1 : S→T` and `f2 : T→E`, and nothing else. -/
def c2doc : XML :=
  mel "definitions" []
    [mel "process" [("id", "P1")]
      [mel "startEvent" [("id", "S")] [],
       mel "task" [("id", "T")] [],
       mel "endEvent" [("id", "E")] [],
       mel "sequenceFlow" [("id", "f1"), ("sourceRef", "S"), ("targetRef", "T")] [],
       mel "sequenceFlow" [("id", "f2"), ("sourceRef", "T"), ("targetRef", "E")] []]]

/-- A document whose flow graph has a back-edge: `S → G → A → G`. -/
def cycleDoc : XML :=
  mel "definitions" []
    [mel "process" [("id", "P1")]
      [mel "startEvent" [("id", "S")] [],
       mel "exclusiveGateway" [("id", "G")] [],
       mel "task" [("id", "A")] [],
       mel "sequenceFlow" [("id", "fs"), ("sourceRef", "S"), ("targetRef", "G")] [],
       mel "sequenceFlow" [("id", "f1"), ("sourceRef", "G"), ("targetRef", "A")] [],
       mel "sequenceFlow" [("id", "fb"), ("sourceRef", "A"), ("targetRef", "G")] []]]

/-- A document whose only process has `isExecutable="True"` (capital T) and
no content at all. -/
def execCaseDoc : XML :=
  mel "definitions" [] [mel "process" [("id", "P1"), ("isExecutable", "True")] []]

/-- A document with one task owning one `dataInputAssociation` whose
`sourceRef` text is `DS1`. -/
def dataAssocDoc : XML :=
  mel "definitions" []
    [mel "process" [("id", "P1")]
      [mel "task" [("id", "T")]
        [mel "dataInputAssociation" []
          [melT "sourceRef" [] "DS1" []]]]]

/-- A document whose only (content-bearing) process has no `name` attribute. -/
def noNameDoc : XML :=
  mel "definitions" []
    [mel "process" [("id", "P1")]
      [mel "startEvent" [("id", "S1")] []]]

/-! Basic lemmas about the dictionary model and the fold combinators. -/

theorem mem_akeys_of_mem {α : Type} {m : List (String × α)} {k : String} {v : α}
    (h : (k, v) ∈ m) : k ∈ akeys m :=
  List.mem_map.mpr ⟨(k, v), h, rfl⟩

theorem akeys_cons {α : Type} (p : String × α) (m : List (String × α)) :
    akeys (p :: m) = p.1 :: akeys m := rfl

theorem alookup_mem_keys {α : Type} {m : List (String × α)} {k : String} {v : α}
    (h : alookup m k = some v) : k ∈ akeys m := by
  induction m with
  | nil => simp [alookup] at h
  | cons p rest ih =>
    rw [alookup] at h
    by_cases hk : p.1 == k
    · rw [akeys_cons]
      exact List.mem_cons.mpr (Or.inl (beq_iff_eq.mp hk).symm)
    · rw [if_neg hk] at h
      rw [akeys_cons]
      exact List.mem_cons.mpr (Or.inr (ih h))

theorem alookup_of_mem_nodup {α : Type} {m : List (String × α)} {k : String} {v : α}
    (hnd : (akeys m).Nodup) (h : (k, v) ∈ m) : alookup m k = some v := by
  induction m with
  | nil => simp at h
  | cons p rest ih =>
    rw [akeys_cons, List.nodup_cons] at hnd
    rcases List.mem_cons.mp h with h | h
    · rw [← h]
      simp [alookup]
    · rw [alookup]
      have hk : ¬ (p.1 == k) = true := by
        intro hq
        exact hnd.1 ((beq_iff_eq.mp hq) ▸ mem_akeys_of_mem h)
      rw [if_neg hk]
      exact ih hnd.2 h

theorem akeys_dinsert {α : Type} (m : List (String × α)) (k : String) (v : α) :
    ∀ x, x ∈ akeys (dinsert m k v) → x ∈ akeys m ∨ x = k := by
  induction m with
  | nil =>
    intro x hx
    rw [dinsert] at hx
    exact Or.inr (by simpa [akeys] using hx)
  | cons p rest ih =>
    intro x hx
    rw [dinsert] at hx
    by_cases hk : (p.1 == k) = true
    · rw [if_pos hk, akeys_cons] at hx
      rcases List.mem_cons.mp hx with hx | hx
      · exact Or.inr hx
      · exact Or.inl (by rw [akeys_cons]; exact List.mem_cons.mpr (Or.inr hx))
    · rw [if_neg hk, akeys_cons] at hx
      rcases List.mem_cons.mp hx with hx | hx
      · exact Or.inl (by rw [akeys_cons]; exact List.mem_cons.mpr (Or.inl hx))
      · rcases ih x hx with h | h
        · exact Or.inl (by rw [akeys_cons]; exact List.mem_cons.mpr (Or.inr h))
        · exact Or.inr h

theorem akeys_dinsert_nodup {α : Type} (m : List (String × α)) (k : String) (v : α)
    (hnd : (akeys m).Nodup) : (akeys (dinsert m k v)).Nodup := by
  induction m with
  | nil => simp [dinsert, akeys]
  | cons p rest ih =>
    rw [akeys_cons, List.nodup_cons] at hnd
    rw [dinsert]
    by_cases hk : (p.1 == k) = true
    · rw [if_pos hk, akeys_cons, List.nodup_cons]
      exact ⟨(beq_iff_eq.mp hk) ▸ hnd.1, hnd.2⟩
    · rw [if_neg hk, akeys_cons, List.nodup_cons]
      refine ⟨fun hmem => ?_, ih hnd.2⟩
      rcases akeys_dinsert rest k v p.1 hmem with h | h
      · exact hnd.1 h
      · exact hk (beq_iff_eq.mpr h)

/-- Preservation of a predicate along a left fold. -/
theorem foldl_pres {σ α : Type} (P : σ → Prop) (step : σ → α → σ)
    (hstep : ∀ s a, P s → P (step s a)) :
    ∀ (l : List α) (s : σ), P s → P (l.foldl step s) := by
  intro l
  induction l with
  | nil => intro s hs; simpa using hs
  | cons a rest ih => intro s hs; exact ih (step s a) (hstep s a hs)

/-- Key provenance along a left fold: any key of the result is a key of the
start state or is produced by one of the inputs. -/
theorem foldl_keys {σ α : Type} (keysOf : σ → List String)
    (P : α → String → Prop) (step : σ → α → σ)
    (hstep : ∀ s a k, k ∈ keysOf (step s a) → k ∈ keysOf s ∨ P a k) :
    ∀ (l : List α) (s : σ) (k : String),
      k ∈ keysOf (l.foldl step s) → k ∈ keysOf s ∨ ∃ a ∈ l, P a k := by
  intro l
  induction l with
  | nil => intro s k hk; exact Or.inl hk
  | cons a rest ih =>
    intro s k hk
    rcases ih (step s a) k hk with h | ⟨b, hb, hP⟩
    · rcases hstep s a k h with h | h
      · exact Or.inl h
      · exact Or.inr ⟨a, by simp, h⟩
    · exact Or.inr ⟨b, by simp [hb], hP⟩

/-- Accumulating left folds are concatenations. -/
theorem foldl_accum {α β : Type} (g : α → List β) :
    ∀ (l : List α) (init : List β),
      l.foldl (fun acc a => acc ++ g a) init
        = init ++ l.foldl (fun acc a => acc ++ g a) [] := by
  intro l
  induction l with
  | nil => intro init; simp
  | cons a rest ih =>
    intro init
    simp only [List.foldl_cons]
    rw [ih (init ++ g a), ih (([] : List β) ++ g a)]
    simp [List.append_assoc]

/-! Unfolding lemmas for the assembled result and the response shape. -/

theorem buildResult_elements (procs : List XML) :
    (buildResult procs).elements = procs.foldl extractElementsProc [] := rfl

theorem buildResult_flows (procs : List XML) :
    (buildResult procs).flows = procs.foldl extractFlowsProc [] := rfl

theorem buildResult_lanes (procs : List XML) :
    (buildResult procs).lanes = procs.foldl extractLanesProc [] := rfl

theorem buildResult_assocs (procs : List XML) :
    (buildResult procs).data_associations
      = procs.foldl (fun acc p => acc ++ procAssocs p) [] := rfl

theorem buildResult_processes (procs : List XML) :
    (buildResult procs).processes = procEntries 0 procs := rfl

theorem buildResult_flow_order (procs : List XML) :
    (buildResult procs).flow_order
      = build_flow_order (buildResult procs).elements (buildResult procs).flows
          (buildResult procs).lanes := rfl

theorem buildResult_warnings (procs : List XML) :
    (buildResult procs).warnings
      = (if (disconnectedIds (buildResult procs).elements (buildResult procs).flows).isEmpty
         then []
         else [({ type := "disconnected_elements"
                  message := toString (disconnectedIds (buildResult procs).elements
                      (buildResult procs).flows).length
                    ++ " element(s) are not connected to any flow"
                  elements := disconnectedIds (buildResult procs).elements
                      (buildResult procs).flows } : Warning)])
        ++ (if (unassignedIds (buildResult procs).elements (buildResult procs).lanes).isEmpty
            then []
            else [({ type := "unassigned_lanes"
                     message := toString (unassignedIds (buildResult procs).elements
                         (buildResult procs).lanes).length
                       ++ " element(s) are not assigned to any lane/pool"
                     elements := unassignedIds (buildResult procs).elements
                         (buildResult procs).lanes } : Warning)]) := rfl

/-- The two MODEL aliases resolve every lookup identically. -/
theorem findall_alias (nm : String) (x : XML) :
    findall "bpmn2" nm x = findall "bpmn" nm x := rfl

/-- Inversion of a successful parse: success means the kept-process list was
non-empty and the result is its assembly, with status 200. -/
theorem parse_ok_inv {root : XML} {r : BpmnResult} {c : Nat}
    (h : parse_bpmn_xml (.ok root) = (.ok r, c)) :
    validProcesses root ≠ [] ∧ r = buildResult (validProcesses root) ∧ c = 200 := by
  rw [parse_bpmn_xml] at h
  by_cases h1 : (findProcesses root).isEmpty
  · rw [if_pos h1] at h
    simp at h
  · rw [if_neg h1] at h
    simp only at h
    by_cases h2 : (validProcesses root).isEmpty
    · rw [if_pos h2] at h
      simp at h
    · rw [if_neg h2] at h
      injection h with h5 h6
      injection h5 with h7
      exact ⟨fun he => h2 (by rw [he]; rfl), h7.symm, h6.symm⟩

theorem contains_iff_mem (l : List String) (a : String) :
    l.contains a = true ↔ a ∈ l := by simp

/-- C3: for every input text that is not well-formed XML (modelled as the
loader raising a `ParseError` with message `msg`), `parse_bpmn_xml` returns
the parse-error response carrying the underlying parser's message with status
400, with no structural fields populated and before any extraction step runs:
the response is this error value for every such input, independently of
everything else. -/
theorem c3_malformed_short_circuit (msg : String) :
    parse_bpmn_xml (.error msg) = (.error ("XML parsing error: " ++ msg), 400) := rfl

/-- The process-keeping rule exactly as claim C4 words it, for comparison with
the source's `keepsProcess`: the `isExecutable` attribute equals the exact
string `"true"`, or an enumerated flow-node tag occurs anywhere beneath the
process. -/
def claimKeepsProcess (proc : XML) : Bool :=
  (proc.get "isExecutable" == some "true")
  || element_types.any (fun t =>
       (findDeep "bpmn" t proc).isSome || (findDeep "bpmn2" t proc).isSome)

/-- C4 counterexample: the only process of `execCaseDoc` has
`isExecutable="True"` (capital T) and no content, so the claim's selector
rejects it and the claim predicts the "no valid process" error; the code
lowercases the attribute, keeps the process, and answers 200 with a
structural result. -/
theorem c4_counterexample :
    (∀ p ∈ findProcesses execCaseDoc, claimKeepsProcess p = false)
    ∧ (parse_bpmn_xml (.ok execCaseDoc)).2 = 200
    ∧ respResult (parse_bpmn_xml (.ok execCaseDoc)) ≠ none := by decide

/-- C4 (amended): the selector keeps a process iff its `isExecutable`
attribute (default `"false"`) equals `"true"` after lowercasing, or one of
the enumerated flow-node tags occurs anywhere beneath it (under either
namespace alias); if a process element was found but none is kept, parsing
fails with the "no valid process" error response, and if some process is
kept it produces a structural result with status 200. -/
theorem c4_selector_amended (root : XML) (hne : findProcesses root ≠ []) :
    (∀ p, keepsProcess p = true ↔
        (pyLower (p.getAttrD "isExecutable" "false") = "true"
         ∨ ∃ t ∈ element_types,
             ((findDeep "bpmn" t p).isSome = true ∨ (findDeep "bpmn2" t p).isSome = true)))
    ∧ ((∀ p ∈ findProcesses root, keepsProcess p = false) →
        parse_bpmn_xml (.ok root)
          = (.error "No valid BPMN process with content found in XML", 400))
    ∧ ((∃ p ∈ findProcesses root, keepsProcess p = true) →
        ∃ res, parse_bpmn_xml (.ok root) = (.ok res, 200)) := by
  refine ⟨?_, ?_, ?_⟩
  · intro p
    simp only [keepsProcess, Bool.or_eq_true, beq_iff_eq, List.any_eq_true]
  · intro hall
    rw [parse_bpmn_xml]
    have h1 : ¬ (findProcesses root).isEmpty = true := by
      rw [List.isEmpty_iff]; exact hne
    rw [if_neg h1]
    simp only
    have h2 : (validProcesses root).isEmpty = true := by
      rw [List.isEmpty_iff, validProcesses, List.filter_eq_nil_iff]
      intro p hp
      rw [hall p hp]
      exact Bool.false_ne_true
    rw [if_pos h2]
  · rintro ⟨p, hp, hk⟩
    have h1 : ¬ (findProcesses root).isEmpty = true := by
      rw [List.isEmpty_iff]; exact hne
    have h2 : ¬ (validProcesses root).isEmpty = true := by
      rw [List.isEmpty_iff]
      intro he
      have : p ∈ validProcesses root := List.mem_filter.mpr ⟨hp, hk⟩
      rw [he] at this
      simp at this
    refine ⟨buildResult (validProcesses root), ?_⟩
    rw [parse_bpmn_xml, if_neg h1]
    simp only
    rw [if_neg h2]

/-- Witness for the amended C4 theorem at the concrete `c2doc`, whose process
has content: the selector keeps it and parsing succeeds. -/
theorem c4_witness : ∃ res, parse_bpmn_xml (.ok c2doc) = (.ok res, 200) :=
  (c4_selector_amended c2doc
    (by intro h
        have hl : (findProcesses c2doc).length = 0 := by rw [h]; rfl
        exact absurd hl (by decide))).2.2 (by decide)

/-- C9: the element- and flow-extraction steps treat an `id` attribute that
is present but empty exactly like a missing one: the guard is the Python
falsiness test, the record is dropped, and the accumulated maps (hence every
downstream output) are left untouched. -/
theorem c9_empty_id_like_missing (x : XML)
    (h : x.get "id" = none ∨ x.get "id" = some "") :
    (∀ pid ty m, elemStep pid ty m x = m) ∧ (∀ pid m, flowStep pid m x = m) := by
  constructor
  · intro pid ty m
    rcases h with h | h <;> simp [elemStep, h]
  · intro pid m
    rcases h with h | h <;> simp [flowStep, h]

/-- Witness for C9 at a concrete task and a concrete sequence flow, both with
`id=""`. -/
theorem c9_witness :
    elemStep none "task" [] (mel "task" [("id", "")] []) = []
    ∧ flowStep none [] (mel "sequenceFlow" [("id", "")] []) = [] :=
  ⟨(c9_empty_id_like_missing (mel "task" [("id", "")] []) (Or.inr (by decide))).1 none "task" [],
   (c9_empty_id_like_missing (mel "sequenceFlow" [("id", "")] []) (Or.inr (by decide))).2 none []⟩

/-- C2 counterexample: for the claim's scenario document the code produces
exactly the claimed flow order, but the warnings list is not empty — the
document declares no lanes, so the `unassigned_lanes` warning fires. -/
theorem c2_counterexample :
    (parse_bpmn_xml (.ok c2doc)).2 = 200
    ∧ (resultOf c2doc).flow_order.map (fun e => (e.id, e.path)) =
        [("S", []), ("T", ["f1"]), ("E", ["f1", "f2"])]
    ∧ (resultOf c2doc).warnings ≠ [] := by decide

/-- C2 (amended): the scenario document `S → T → E` yields
`flow_order = [⟨S, []⟩, ⟨T, [f1]⟩, ⟨E, [f1, f2]⟩]` and, since the document
declares no lanes, the warnings list is not empty but consists of exactly one
warning: `unassigned_lanes` with a count-bearing message over exactly the
three element ids (no disconnected-elements warning is present). -/
theorem c2_scenario_amended :
    (parse_bpmn_xml (.ok c2doc)).2 = 200
    ∧ (resultOf c2doc).flow_order.map (fun e => (e.id, e.path)) =
        [("S", []), ("T", ["f1"]), ("E", ["f1", "f2"])]
    ∧ (resultOf c2doc).warnings.map (fun w => (w.type, w.message)) =
        [("unassigned_lanes", "3 element(s) are not assigned to any lane/pool")]
    ∧ ∀ w ∈ (resultOf c2doc).warnings, w.elements.Perm ["S", "T", "E"] := by decide

/-- The kept processes as found under a single namespace alias; because both
aliases resolve to the same URI, the source's process list is this list
appended to itself. -/
def keptOnce (root : XML) : List XML :=
  (findall "bpmn" "process" root).filter keepsProcess

theorem validProcesses_eq (root : XML) :
    validProcesses root = keptOnce root ++ keptOnce root := by
  rw [validProcesses, findProcesses, findall_alias, List.filter_append]
  rfl

theorem procEntries_length : ∀ (i : Nat) (l : List XML),
    (procEntries i l).length = l.length := by
  intro i l
  induction l generalizing i with
  | nil => rfl
  | cons p rest ih => simp [procEntries, ih]

theorem procEntries_append : ∀ (i : Nat) (l1 l2 : List XML),
    procEntries i (l1 ++ l2) = procEntries i l1 ++ procEntries (i + l1.length) l2 := by
  intro i l1
  induction l1 generalizing i with
  | nil => intro l2; simp [procEntries]
  | cons p rest ih =>
    intro l2
    simp only [List.cons_append, procEntries, List.length_cons, List.append_eq]
    rw [ih (i + 1) l2]
    have hidx : i + 1 + rest.length = i + (rest.length + 1) := by omega
    rw [hidx]

theorem procEntries_getElem? : ∀ (i j : Nat) (l : List XML),
    (procEntries i l)[j]? = (l[j]?).map (fun p => procEntry (i + j) p) := by
  intro i j l
  induction l generalizing i j with
  | nil => simp [procEntries]
  | cons p rest ih =>
    cases j with
    | zero => simp [procEntries]
    | succ j' =>
      rw [procEntries]
      simp only [List.getElem?_cons_succ]
      rw [ih (i + 1) j']
      have hidx : i + 1 + j' = i + (j' + 1) := by omega
      rw [hidx]

/-- C8 counterexample: the single kept process of `noNameDoc` has no `name`
attribute, so its two `processes` entries get the position-dependent default
names `Process 1` and `Process 2` — they are not identical, against the
claim's "two identical entries". -/
theorem c8_counterexample :
    (resultOf noNameDoc).processes.map (fun p => (p.id, p.name)) =
      [(some "P1", "Process 1"), (some "P1", "Process 2")]
    ∧ (resultOf noNameDoc).processes[0]? ≠ (resultOf noNameDoc).processes[1]? := by decide

/-- C8 (amended): each kept process contributes exactly two entries to the
`processes` list (at index `i` and `i + n`, where `n` is the number of kept
processes found under one alias), because the two MODEL aliases resolve to
the same URI and the per-process loop runs twice over each process; the two
entries always agree on `id` and `documentation`, and are fully identical
whenever the process carries a `name` attribute — a process without one
receives the position-dependent default `Process (index+1)`, which differs
between the two passes. -/
theorem c8_processes_amended (root : XML) (r : BpmnResult) (c : Nat)
    (h : parse_bpmn_xml (.ok root) = (.ok r, c)) :
    r.processes
      = procEntries 0 (keptOnce root) ++ procEntries (keptOnce root).length (keptOnce root)
    ∧ r.processes.length = 2 * (keptOnce root).length
    ∧ ∀ i, i < (keptOnce root).length →
        ((r.processes[i]?).map ProcInfo.id
            = (r.processes[i + (keptOnce root).length]?).map ProcInfo.id
         ∧ (r.processes[i]?).map ProcInfo.documentation
            = (r.processes[i + (keptOnce root).length]?).map ProcInfo.documentation
         ∧ ∀ p, (keptOnce root)[i]? = some p → (p.get "name").isSome →
             r.processes[i]? = r.processes[i + (keptOnce root).length]?) := by
  obtain ⟨-, hr, -⟩ := parse_ok_inv h
  subst hr
  have hps : (buildResult (validProcesses root)).processes
      = procEntries 0 (keptOnce root)
        ++ procEntries (keptOnce root).length (keptOnce root) := by
    rw [buildResult_processes, validProcesses_eq, procEntries_append, Nat.zero_add]
  have hL1 : (procEntries 0 (keptOnce root)).length = (keptOnce root).length :=
    procEntries_length 0 _
  have hL2 : (procEntries (keptOnce root).length (keptOnce root)).length
      = (keptOnce root).length := procEntries_length _ _
  refine ⟨hps, ?_, ?_⟩
  · rw [hps, List.length_append, hL1, hL2]
    omega
  · intro i hi
    have hleft : (procEntries 0 (keptOnce root)
          ++ procEntries (keptOnce root).length (keptOnce root))[i]?
        = (procEntries 0 (keptOnce root))[i]? :=
      List.getElem?_append_left (by omega)
    have hright : (procEntries 0 (keptOnce root)
          ++ procEntries (keptOnce root).length (keptOnce root))[i + (keptOnce root).length]?
        = (procEntries (keptOnce root).length (keptOnce root))[i]? := by
      rw [List.getElem?_append_right (by omega)]
      congr 1
      omega
    rw [hps, hleft, hright, procEntries_getElem?, procEntries_getElem?, Nat.zero_add]
    refine ⟨?_, ?_, ?_⟩
    · cases (keptOnce root)[i]? <;> rfl
    · cases (keptOnce root)[i]? <;> rfl
    · intro p hp hname
      rw [hp]
      rcases Option.isSome_iff_exists.mp hname with ⟨v, hv⟩
      simp only [Option.map]
      congr 1
      simp [procEntry, XML.getAttrD, hv]

/-- Witness for the amended C8 theorem at `noNameDoc`. -/
theorem c8_witness :
    (resultOf noNameDoc).processes.length = 2 * (keptOnce noNameDoc).length :=
  (c8_processes_amended noNameDoc (resultOf noNameDoc) 200 rfl).2.1

/-- The input-association records of one id-bearing element as produced by a
single (un-doubled) scan of its descendant `dataInputAssociation` nodes. -/
def taskInOnce (t : XML) : List DataAssoc :=
  (findall "bpmn" "dataInputAssociation" t).foldl
    (fun acc a => acc ++ inputAssocRecs ((t.get "id").getD "") a) []

/-- The output-association records of one id-bearing element as produced by a
single (un-doubled) scan of its descendant `dataOutputAssociation` nodes. -/
def taskOutOnce (t : XML) : List DataAssoc :=
  (findall "bpmn" "dataOutputAssociation" t).foldl
    (fun acc a => acc ++ outputAssocRecs ((t.get "id").getD "") a) []

/-- The per-element association scan of the source emits every record twice:
both namespace aliases resolve the `findall` to the same node list. -/
theorem taskAssocs_eq (t : XML) :
    taskAssocs t = (taskInOnce t ++ taskInOnce t) ++ (taskOutOnce t ++ taskOutOnce t) := by
  rw [taskAssocs]
  rw [findall_alias "dataInputAssociation", findall_alias "dataOutputAssociation"]
  rw [List.foldl_append, List.foldl_append]
  rw [foldl_accum (inputAssocRecs ((t.get "id").getD ""))
        (findall "bpmn" "dataInputAssociation" t)
        ((findall "bpmn" "dataInputAssociation" t).foldl
          (fun acc a => acc ++ inputAssocRecs ((t.get "id").getD "") a) []),
      foldl_accum (outputAssocRecs ((t.get "id").getD ""))
        (findall "bpmn" "dataOutputAssociation" t)
        ((findall "bpmn" "dataOutputAssociation" t).foldl
          (fun acc a => acc ++ outputAssocRecs ((t.get "id").getD "") a) [])]
  rfl

/-- C6 counterexample: `dataAssocDoc` holds exactly one id-bearing element
with exactly one descendant `dataInputAssociation` whose `sourceRef` text is
non-empty, so the claim predicts exactly one appended record; the code
appends the same record four times. -/
theorem c6_counterexample :
    (parse_bpmn_xml (.ok dataAssocDoc)).2 = 200
    ∧ (resultOf dataAssocDoc).data_associations.length = 4
    ∧ (resultOf dataAssocDoc).data_associations
        = List.replicate 4 ⟨"input", "DS1", "T", some "", none⟩ := by decide

/-- C6 (amended): per id-bearing element and qualifying descendant
association the source appends exactly FOUR records, not one: the whole
`data_associations` list is a doubled concatenation of per-process scans
(the alias doubling duplicates the kept-process list), and within one scan
each element's record list is again emitted twice per direction (the alias
doubling also duplicates the association lookup); a single un-doubled scan
appends exactly one input record per `dataInputAssociation` with non-empty
`sourceRef` text, and exactly one output record per `dataOutputAssociation`
with non-empty `targetRef` text. -/
theorem c6_data_assoc_amended (root : XML) (r : BpmnResult) (c : Nat)
    (h : parse_bpmn_xml (.ok root) = (.ok r, c)) :
    (r.data_associations
       = ((keptOnce root).foldl (fun acc p => acc ++ procAssocs p) [])
         ++ ((keptOnce root).foldl (fun acc p => acc ++ procAssocs p) []))
    ∧ (∀ t, taskAssocs t = (taskInOnce t ++ taskInOnce t) ++ (taskOutOnce t ++ taskOutOnce t))
    ∧ (∀ tid a, (inputAssocRecs tid a).length ≤ 1
         ∧ ((inputAssocRecs tid a).length = 1 ↔ ¬ safe_find_text a "bpmn" "sourceRef" = ""))
    ∧ (∀ tid a, (outputAssocRecs tid a).length ≤ 1
         ∧ ((outputAssocRecs tid a).length = 1 ↔ ¬ safe_find_text a "bpmn" "targetRef" = "")) := by
  obtain ⟨-, hr, -⟩ := parse_ok_inv h
  subst hr
  refine ⟨?_, taskAssocs_eq, ?_, ?_⟩
  · rw [buildResult_assocs, validProcesses_eq, List.foldl_append,
        foldl_accum procAssocs (keptOnce root)
          ((keptOnce root).foldl (fun acc p => acc ++ procAssocs p) [])]
  · intro tid a
    have hsame : safe_find_text a "bpmn2" "sourceRef" = safe_find_text a "bpmn" "sourceRef" := rfl
    rw [inputAssocRecs]
    simp only [hsame, pyOrStr]
    by_cases hs : (safe_find_text a "bpmn" "sourceRef" == "") = true
    · simp [hs, beq_iff_eq.mp hs]
    · simp only [if_neg hs]
      simp [beq_iff_eq] at hs
      simp [hs]
  · intro tid a
    have hsame : safe_find_text a "bpmn2" "targetRef" = safe_find_text a "bpmn" "targetRef" := rfl
    rw [outputAssocRecs]
    simp only [hsame, pyOrStr]
    by_cases hs : (safe_find_text a "bpmn" "targetRef" == "") = true
    · simp [hs, beq_iff_eq.mp hs]
    · simp only [if_neg hs]
      simp [beq_iff_eq] at hs
      simp [hs]

/-- Witness for the amended C6 theorem at `dataAssocDoc`. -/
theorem c6_witness :
    (resultOf dataAssocDoc).data_associations
      = ((keptOnce dataAssocDoc).foldl (fun acc p => acc ++ procAssocs p) [])
        ++ ((keptOnce dataAssocDoc).foldl (fun acc p => acc ++ procAssocs p) []) :=
  (c6_data_assoc_amended dataAssocDoc (resultOf dataAssocDoc) 200 rfl).1

/-- Membership characterisation of the disconnected-id set. -/
theorem mem_disconnectedIds (es : List (String × Element)) (fs : List (String × SeqFlow))
    (k : String) :
    k ∈ disconnectedIds es fs
      ↔ (k ∈ akeys es ∧ ∀ pr ∈ fs, ¬ pr.2.source = some k ∧ ¬ pr.2.target = some k) := by
  rw [disconnectedIds, List.mem_filter]
  simp [List.any_eq_true, beq_iff_eq, not_or]

/-- C5: the `disconnected_elements` warning is in the output iff some
extracted element id occurs as neither source nor target of any extracted
flow; at most one warning of this kind is ever emitted, and any such warning
carries exactly that set of ids and the count-bearing message. -/
theorem c5_disconnected_warning (root : XML) (r : BpmnResult) (c : Nat)
    (h : parse_bpmn_xml (.ok root) = (.ok r, c)) :
    ((∃ w ∈ r.warnings, w.type = "disconnected_elements") ↔
        ∃ k ∈ akeys r.elements,
          ∀ pr ∈ r.flows, ¬ pr.2.source = some k ∧ ¬ pr.2.target = some k)
    ∧ (r.warnings.filter (fun w => w.type == "disconnected_elements")).length ≤ 1
    ∧ (∀ w ∈ r.warnings, w.type = "disconnected_elements" →
        (∀ k, k ∈ w.elements ↔ (k ∈ akeys r.elements ∧
            ∀ pr ∈ r.flows, ¬ pr.2.source = some k ∧ ¬ pr.2.target = some k))
        ∧ w.message
            = toString w.elements.length ++ " element(s) are not connected to any flow") := by
  obtain ⟨-, hr, -⟩ := parse_ok_inv h
  subst hr
  rw [buildResult_warnings]
  by_cases hD : (disconnectedIds (buildResult (validProcesses root)).elements
      (buildResult (validProcesses root)).flows).isEmpty
  · rw [if_pos hD, List.nil_append]
    rw [List.isEmpty_iff] at hD
    refine ⟨?_, ?_, ?_⟩
    · constructor
      · rintro ⟨w, hw, hty⟩
        by_cases hU : (unassignedIds (buildResult (validProcesses root)).elements
            (buildResult (validProcesses root)).lanes).isEmpty
        · rw [if_pos hU] at hw
          simp at hw
        · rw [if_neg hU] at hw
          simp at hw
          rw [hw] at hty
          simp at hty
      · rintro ⟨k, hk, hprop⟩
        have : k ∈ disconnectedIds (buildResult (validProcesses root)).elements
            (buildResult (validProcesses root)).flows :=
          (mem_disconnectedIds _ _ k).mpr ⟨hk, hprop⟩
        rw [hD] at this
        simp at this
    · by_cases hU : (unassignedIds (buildResult (validProcesses root)).elements
          (buildResult (validProcesses root)).lanes).isEmpty
      · rw [if_pos hU]
        simp
      · rw [if_neg hU]
        simp
    · intro w hw hty
      by_cases hU : (unassignedIds (buildResult (validProcesses root)).elements
          (buildResult (validProcesses root)).lanes).isEmpty
      · rw [if_pos hU] at hw
        simp at hw
      · rw [if_neg hU] at hw
        simp at hw
        rw [hw] at hty
        simp at hty
  · rw [if_neg hD]
    refine ⟨?_, ?_, ?_⟩
    · constructor
      · intro _
        have hne : disconnectedIds (buildResult (validProcesses root)).elements
            (buildResult (validProcesses root)).flows ≠ [] := by
          intro he
          rw [List.isEmpty_iff] at hD
          exact hD he
        rcases List.exists_mem_of_ne_nil _ hne with ⟨k, hk⟩
        exact ⟨k, ((mem_disconnectedIds _ _ k).mp hk).1, ((mem_disconnectedIds _ _ k).mp hk).2⟩
      · intro _
        refine ⟨{ type := "disconnected_elements"
                  message := toString (disconnectedIds
                      (buildResult (validProcesses root)).elements
                      (buildResult (validProcesses root)).flows).length
                    ++ " element(s) are not connected to any flow"
                  elements := disconnectedIds (buildResult (validProcesses root)).elements
                      (buildResult (validProcesses root)).flows }, ?_, rfl⟩
        exact List.mem_append.mpr (Or.inl (by simp))
    · rw [List.filter_append]
      by_cases hU : (unassignedIds (buildResult (validProcesses root)).elements
          (buildResult (validProcesses root)).lanes).isEmpty
      · rw [if_pos hU]
        simp
      · rw [if_neg hU]
        simp
    · intro w hw hty
      rcases List.mem_append.mp hw with hw | hw
      · simp at hw
        subst hw
        refine ⟨fun k => ?_, rfl⟩
        exact mem_disconnectedIds _ _ k
      · by_cases hU : (unassignedIds (buildResult (validProcesses root)).elements
            (buildResult (validProcesses root)).lanes).isEmpty
        · rw [if_pos hU] at hw
          simp at hw
        · rw [if_neg hU] at hw
          simp at hw
          rw [hw] at hty
          simp at hty

/-- Witness for the C5 theorem at `dataAssocDoc`, whose only element `T` is
touched by no flow, so the warning is present. -/
theorem c5_witness :
    ∃ w ∈ (resultOf dataAssocDoc).warnings, w.type = "disconnected_elements" :=
  (c5_disconnected_warning dataAssocDoc (resultOf dataAssocDoc) 200 rfl).1.mpr
    ⟨"T", by decide, by decide⟩

/-- An element-extraction step only ever adds the element's own non-empty id
as a key. -/
theorem elemStep_keys (pid : Option String) (ty : String)
    (m : List (String × Element)) (e : XML) (k : String)
    (hk : k ∈ akeys (elemStep pid ty m e)) :
    k ∈ akeys m ∨ (e.get "id" = some k ∧ ¬ k = "") := by
  rw [elemStep] at hk
  split at hk
  · exact Or.inl hk
  · rename_i i hid
    split at hk
    · exact Or.inl hk
    · rename_i hie
      rcases akeys_dinsert m i _ k hk with h | h
      · exact Or.inl h
      · subst h
        refine Or.inr ⟨hid, fun he => hie (beq_iff_eq.mpr he)⟩

/-- A flow-extraction step only ever adds the flow's own non-empty id as a
key. -/
theorem flowStep_keys (pid : Option String)
    (m : List (String × SeqFlow)) (e : XML) (k : String)
    (hk : k ∈ akeys (flowStep pid m e)) :
    k ∈ akeys m ∨ (e.get "id" = some k ∧ ¬ k = "") := by
  rw [flowStep] at hk
  split at hk
  · exact Or.inl hk
  · rename_i i hid
    split at hk
    · exact Or.inl hk
    · rename_i hie
      rcases akeys_dinsert m i _ k hk with h | h
      · exact Or.inl h
      · subst h
        refine Or.inr ⟨hid, fun he => hie (beq_iff_eq.mpr he)⟩

/-- Key provenance of the per-process element extraction. -/
theorem extractElementsProc_keys (m : List (String × Element)) (p : XML) (k : String)
    (hk : k ∈ akeys (extractElementsProc m p)) :
    k ∈ akeys m ∨ ∃ ty ∈ element_types, ∃ e ∈ findall "bpmn" ty p,
      (e.get "id" = some k ∧ ¬ k = "") := by
  rw [extractElementsProc] at hk
  rcases foldl_keys akeys
      (fun ty k => ∃ e ∈ findall "bpmn" ty p, (e.get "id" = some k ∧ ¬ k = ""))
      (fun m ty => ((findall "bpmn" ty p) ++ (findall "bpmn2" ty p)).foldl
        (elemStep (p.get "id") ty) m)
      (fun m ty k hk => by
        rcases foldl_keys akeys
            (fun e k => e.get "id" = some k ∧ ¬ k = "")
            (elemStep (p.get "id") ty)
            (fun m e k h => elemStep_keys (p.get "id") ty m e k h)
            ((findall "bpmn" ty p) ++ (findall "bpmn2" ty p)) m k hk with h | ⟨e, he, hP⟩
        · exact Or.inl h
        · refine Or.inr ⟨e, ?_, hP⟩
          rcases List.mem_append.mp he with he | he
          · exact he
          · rw [findall_alias] at he
            exact he)
      element_types m k hk with h | h
  · exact Or.inl h
  · exact Or.inr h

/-- Key provenance of the per-process flow extraction. -/
theorem extractFlowsProc_keys (m : List (String × SeqFlow)) (p : XML) (k : String)
    (hk : k ∈ akeys (extractFlowsProc m p)) :
    k ∈ akeys m ∨ ∃ e ∈ findall "bpmn" "sequenceFlow" p,
      (e.get "id" = some k ∧ ¬ k = "") := by
  rw [extractFlowsProc] at hk
  rcases foldl_keys akeys
      (fun e k => e.get "id" = some k ∧ ¬ k = "")
      (flowStep (p.get "id"))
      (fun m e k h => flowStep_keys (p.get "id") m e k h)
      ((findall "bpmn" "sequenceFlow" p) ++ (findall "bpmn2" "sequenceFlow" p)) m k hk
    with h | ⟨e, he, hP⟩
  · exact Or.inl h
  · refine Or.inr ⟨e, ?_, hP⟩
    rcases List.mem_append.mp he with he | he
    · exact he
    · rw [findall_alias] at he
      exact he

/-- C7: every key of the element map is the non-empty `id` of some
enumerated flow-node element found under a kept process, and every key of
the flow map is the non-empty `id` of some found `sequenceFlow` — so a
flow node or sequence flow without an id (or with an empty one) contributes
no entry to either map; moreover every warning the parse can emit is one of
the two structural kinds and mentions only extracted element ids, so the
dropped elements trigger no warning or error of any kind. -/
theorem c7_missing_id_silently_dropped (root : XML) (r : BpmnResult) (c : Nat)
    (h : parse_bpmn_xml (.ok root) = (.ok r, c)) :
    (∀ k ∈ akeys r.elements, ¬ k = "" ∧ ∃ p ∈ validProcesses root,
        ∃ ty ∈ element_types, ∃ e ∈ findall "bpmn" ty p, e.get "id" = some k)
    ∧ (∀ k ∈ akeys r.flows, ¬ k = "" ∧ ∃ p ∈ validProcesses root,
        ∃ e ∈ findall "bpmn" "sequenceFlow" p, e.get "id" = some k)
    ∧ (∀ w ∈ r.warnings,
        (w.type = "disconnected_elements" ∨ w.type = "unassigned_lanes")
        ∧ ∀ k ∈ w.elements, k ∈ akeys r.elements) := by
  obtain ⟨-, hr, -⟩ := parse_ok_inv h
  subst hr
  refine ⟨?_, ?_, ?_⟩
  · intro k hk
    rw [buildResult_elements] at hk
    rcases foldl_keys akeys
        (fun p k => ∃ ty ∈ element_types, ∃ e ∈ findall "bpmn" ty p,
          (e.get "id" = some k ∧ ¬ k = ""))
        extractElementsProc
        (fun m p k h => extractElementsProc_keys m p k h)
        (validProcesses root) [] k hk with h | ⟨p, hp, ty, hty, e, he, hid, hne⟩
    · simp [akeys] at h
    · exact ⟨hne, p, hp, ty, hty, e, he, hid⟩
  · intro k hk
    rw [buildResult_flows] at hk
    rcases foldl_keys akeys
        (fun p k => ∃ e ∈ findall "bpmn" "sequenceFlow" p,
          (e.get "id" = some k ∧ ¬ k = ""))
        extractFlowsProc
        (fun m p k h => extractFlowsProc_keys m p k h)
        (validProcesses root) [] k hk with h | ⟨p, hp, e, he, hid, hne⟩
    · simp [akeys] at h
    · exact ⟨hne, p, hp, e, he, hid⟩
  · intro w hw
    rw [buildResult_warnings] at hw
    rcases List.mem_append.mp hw with hw | hw
    · split at hw
      · simp at hw
      · simp at hw
        subst hw
        refine ⟨Or.inl rfl, fun k hk => ?_⟩
        exact ((mem_disconnectedIds _ _ k).mp hk).1
    · split at hw
      · simp at hw
      · simp at hw
        subst hw
        refine ⟨Or.inr rfl, fun k hk => ?_⟩
        rw [unassignedIds, List.mem_filter] at hk
        exact hk.1

/-- Witness for the C7 theorem at `c2doc` and the extracted key `S`. -/
theorem c7_witness :
    ¬ "S" = "" ∧ ∃ p ∈ validProcesses c2doc, ∃ ty ∈ element_types,
      ∃ e ∈ findall "bpmn" ty p, e.get "id" = some "S" :=
  (c7_missing_id_silently_dropped c2doc (resultOf c2doc) 200 rfl).1 "S" (by decide)

/-! Invariants of the traversal. -/

/-- Growth order on traversal states: the visited set only grows and the
output list is only appended to. -/
def travLe (a b : TravSt) : Prop :=
  a.1 ⊆ b.1 ∧ ∃ ext, b.2 = a.2 ++ ext

theorem travLe_refl (a : TravSt) : travLe a a :=
  ⟨fun _ h => h, [], by simp⟩

theorem travLe_trans {a b c : TravSt} (h1 : travLe a b) (h2 : travLe b c) : travLe a c := by
  obtain ⟨hs1, e1, he1⟩ := h1
  obtain ⟨hs2, e2, he2⟩ := h2
  exact ⟨fun x hx => hs2 (hs1 hx), e1 ++ e2, by rw [he2, he1, List.append_assoc]⟩

theorem traverse_flow_mono (es : List (String × Element)) (fs : List (String × SeqFlow))
    (ls : List (String × String)) :
    ∀ fuel eo path st, travLe st (traverse_flow es fs ls fuel eo path st) := by
  intro fuel
  induction fuel with
  | zero =>
    intro eo path st
    exact travLe_refl st
  | succ n ih =>
    intro eo path st
    simp only [traverse_flow]
    cases eo with
    | none => exact travLe_refl st
    | some elem_id =>
      by_cases hc : st.1.contains elem_id
      · simp only [hc, if_true]
        exact travLe_refl st
      · simp only [hc, Bool.false_eq_true, if_false]
        cases hl : alookup es elem_id with
        | none => exact travLe_refl st
        | some elem =>
          simp only
          have hfold : ∀ (outs : List String) (st0 : TravSt),
              travLe st0 (outs.foldl
                (fun st' fid =>
                  match alookup fs fid with
                  | some fl => traverse_flow es fs ls n fl.target (path ++ [fid]) st'
                  | none => st') st0) := by
            intro outs
            induction outs with
            | nil => intro st0; exact travLe_refl st0
            | cons fid rest iho =>
              intro st0
              rw [List.foldl_cons]
              cases hfl : alookup fs fid with
              | none =>
                simp only [hfl]
                exact iho st0
              | some fl =>
                simp only [hfl]
                exact travLe_trans (ih fl.target (path ++ [fid]) st0) (iho _)
          refine travLe_trans (b := (elem_id :: st.1, st.2 ++ [_])) ?_ (hfold _ _)
          exact ⟨fun x hx => List.mem_cons.mpr (Or.inr hx), _, rfl⟩

/-- The invariant giving C1: emitted ids are distinct and all visited. -/
def travInv (st : TravSt) : Prop :=
  (st.2.map FlowEntry.id).Nodup ∧ ∀ i ∈ st.2.map FlowEntry.id, i ∈ st.1

theorem traverse_flow_inv (es : List (String × Element)) (fs : List (String × SeqFlow))
    (ls : List (String × String)) :
    ∀ fuel eo path st, travInv st → travInv (traverse_flow es fs ls fuel eo path st) := by
  intro fuel
  induction fuel with
  | zero => intro eo path st h; exact h
  | succ n ih =>
    intro eo path st hinv
    simp only [traverse_flow]
    cases eo with
    | none => exact hinv
    | some elem_id =>
      by_cases hc : st.1.contains elem_id
      · simp only [hc, if_true]; exact hinv
      · simp only [hc, Bool.false_eq_true, if_false]
        cases hl : alookup es elem_id with
        | none => exact hinv
        | some elem =>
          simp only
          have hnm : elem_id ∉ st.1 := fun hmem => by
            rw [(contains_iff_mem st.1 elem_id).mpr hmem] at hc
            exact hc rfl
          have hinit : travInv (elem_id :: st.1,
              st.2 ++ [({ id := elem_id, name := elem.name, type := elem.type,
                          actor := (alookup ls elem_id).getD "N/A", path := path,
                          documentation := elem.documentation,
                          eventDefinitions := elem.eventDefinitions } : FlowEntry)]) := by
            constructor
            · rw [List.map_append]
              refine ((List.perm_append_singleton _ _).nodup_iff).mpr ?_
              rw [List.nodup_cons]
              exact ⟨fun hmem => hnm (hinv.2 _ hmem), hinv.1⟩
            · intro i hi
              rw [List.map_append] at hi
              rcases List.mem_append.mp hi with hi | hi
              · exact List.mem_cons.mpr (Or.inr (hinv.2 i hi))
              · simp at hi
                exact List.mem_cons.mpr (Or.inl hi)
          exact foldl_pres travInv _
            (fun st0 fid h0 => by
              cases hfl : alookup fs fid with
              | none => simpa [hfl] using h0
              | some fl =>
                simpa [hfl] using ih fl.target (path ++ [fid]) st0 h0)
            _ _ hinit

theorem traverse_roots_inv (es : List (String × Element)) (fs : List (String × SeqFlow))
    (ls : List (String × String)) :
    ∀ roots st, travInv st → travInv (traverse_roots es fs ls roots st) := by
  intro roots
  induction roots with
  | nil => intro st h; exact h
  | cons s rest ih =>
    intro st h
    rw [traverse_roots]
    exact ih _ (traverse_flow_inv es fs ls _ (some s) [] st h)

/-- Number of element-map keys not yet visited: the measure that makes the
Python recursion terminate. -/
def unvisitedCount (es : List (String × Element)) (vis : List String) : Nat :=
  ((akeys es).filter (fun k => !vis.contains k)).length

theorem length_filter_le_of_imp {α : Type} (p q : α → Bool)
    (h : ∀ a, q a = true → p a = true) :
    ∀ l : List α, (l.filter q).length ≤ (l.filter p).length := by
  intro l
  induction l with
  | nil => simp
  | cons a rest ih =>
    by_cases hq : q a = true
    · rw [List.filter_cons_of_pos hq, List.filter_cons_of_pos (h a hq)]
      simpa using ih
    · rw [List.filter_cons_of_neg (by simpa using hq)]
      by_cases hp : p a = true
      · rw [List.filter_cons_of_pos hp]
        exact Nat.le_trans ih (by simp)
      · rw [List.filter_cons_of_neg (by simpa using hp)]
        exact ih

theorem length_filter_lt_of_imp {α : Type} (p q : α → Bool)
    (h : ∀ a, q a = true → p a = true) (x : α) (hpx : p x = true) (hqx : q x = false) :
    ∀ l : List α, x ∈ l → (l.filter q).length < (l.filter p).length := by
  intro l
  induction l with
  | nil => intro hx; simp at hx
  | cons a rest ih =>
    intro hx
    by_cases hq : q a = true
    · have hxr : x ∈ rest := by
        rcases List.mem_cons.mp hx with hx | hx
        · rw [hx, hq] at hqx
          simp at hqx
        · exact hx
      rw [List.filter_cons_of_pos hq, List.filter_cons_of_pos (h a hq)]
      simpa using ih hxr
    · rw [List.filter_cons_of_neg (by simpa using hq)]
      by_cases hp : p a = true
      · rw [List.filter_cons_of_pos hp]
        have := length_filter_le_of_imp p q h rest
        simp only [List.length_cons]
        omega
      · have hxr : x ∈ rest := by
          rcases List.mem_cons.mp hx with hx | hx
          · rw [hx] at hpx
            exact absurd hpx hp
          · exact hx
        rw [List.filter_cons_of_neg (by simpa using hp)]
        exact ih hxr

theorem unvisitedCount_mono (es : List (String × Element)) {v1 v2 : List String}
    (h : v1 ⊆ v2) : unvisitedCount es v2 ≤ unvisitedCount es v1 := by
  refine length_filter_le_of_imp _ _ (fun a ha => ?_) (akeys es)
  simp only [Bool.not_eq_true'] at ha ⊢
  cases hv1 : v1.contains a with
  | false => rfl
  | true =>
    rw [(contains_iff_mem v2 a).mpr (h ((contains_iff_mem v1 a).mp hv1))] at ha
    cases ha

theorem unvisitedCount_lt (es : List (String × Element)) (vis : List String) (k : String)
    (hk : k ∈ akeys es) (hnv : vis.contains k = false) :
    unvisitedCount es (k :: vis) < unvisitedCount es vis := by
  have hmem : (k :: vis).contains k = true :=
    (contains_iff_mem _ k).mpr (List.mem_cons.mpr (Or.inl rfl))
  have hknv : k ∉ vis := fun hm => by
    rw [(contains_iff_mem vis k).mpr hm] at hnv
    cases hnv
  refine length_filter_lt_of_imp _ _ (fun a ha => ?_) k (by simp [hknv]) (by simp [hmem])
    (akeys es) hk
  simp only [Bool.not_eq_true'] at ha ⊢
  cases hv : vis.contains a with
  | false => rfl
  | true =>
    have hca : (k :: vis).contains a = true :=
      (contains_iff_mem _ a).mpr (List.mem_cons.mpr (Or.inr ((contains_iff_mem vis a).mp hv)))
    rw [hca] at ha
    cases ha

theorem unvisitedCount_le_length (es : List (String × Element)) (vis : List String) :
    unvisitedCount es vis ≤ es.length := by
  refine Nat.le_trans (List.length_filter_le _ _) ?_
  simp [akeys]

/-- Fuel-irrelevance: any two fuel values above the number of unvisited
element keys produce the same traversal, which is exactly the termination of
the Python recursion. -/
theorem traverse_flow_fuel (es : List (String × Element)) (fs : List (String × SeqFlow))
    (ls : List (String × String)) :
    ∀ f1 f2 eo path st, unvisitedCount es st.1 < f1 → unvisitedCount es st.1 < f2 →
      traverse_flow es fs ls f1 eo path st = traverse_flow es fs ls f2 eo path st := by
  intro f1
  induction f1 with
  | zero => intro f2 eo path st h1 h2; omega
  | succ n ih =>
    intro f2 eo path st h1 h2
    cases f2 with
    | zero => omega
    | succ m =>
      simp only [traverse_flow]
      cases eo with
      | none => rfl
      | some elem_id =>
        by_cases hc : st.1.contains elem_id
        · simp only [hc, if_true]
        · simp only [hc, Bool.false_eq_true, if_false]
          cases hl : alookup es elem_id with
          | none => rfl
          | some elem =>
            simp only
            have hk : elem_id ∈ akeys es := alookup_mem_keys hl
            have hcf : st.1.contains elem_id = false := by
              cases hcc : st.1.contains elem_id with
              | false => rfl
              | true => exact absurd hcc hc
            have hdec : unvisitedCount es (elem_id :: st.1) < unvisitedCount es st.1 :=
              unvisitedCount_lt es st.1 elem_id hk hcf
            have hfold : ∀ (outs : List String) (st0 : TravSt),
                unvisitedCount es st0.1 < n → unvisitedCount es st0.1 < m →
                outs.foldl
                  (fun st' fid =>
                    match alookup fs fid with
                    | some fl => traverse_flow es fs ls n fl.target (path ++ [fid]) st'
                    | none => st') st0
                = outs.foldl
                  (fun st' fid =>
                    match alookup fs fid with
                    | some fl => traverse_flow es fs ls m fl.target (path ++ [fid]) st'
                    | none => st') st0 := by
              intro outs
              induction outs with
              | nil => intro st0 _ _; rfl
              | cons fid rest iho =>
                intro st0 hn hm
                rw [List.foldl_cons, List.foldl_cons]
                cases hfl : alookup fs fid with
                | none =>
                  simp only [hfl]
                  exact iho st0 hn hm
                | some fl =>
                  simp only [hfl]
                  rw [ih m fl.target (path ++ [fid]) st0 hn hm]
                  refine iho _ ?_ ?_
                  · exact Nat.lt_of_le_of_lt (unvisitedCount_mono es
                      (traverse_flow_mono es fs ls m fl.target (path ++ [fid]) st0).1) hn
                  · exact Nat.lt_of_le_of_lt (unvisitedCount_mono es
                      (traverse_flow_mono es fs ls m fl.target (path ++ [fid]) st0).1) hm
            refine hfold _ _ ?_ ?_
            · show unvisitedCount es (elem_id :: st.1) < n
              omega
            · show unvisitedCount es (elem_id :: st.1) < m
              omega

/-- C1: every element id occurs at most once in `flow_order` (the shared
visited set dedups across start events and cycles); the traversal's fuel
bound is never exhausted, so the embedded recursion computes the same result
for every sufficient fuel — the Python recursion terminates; and the
back-edge document `S → G → A → G` is traversed to `[S, G, A]` with the
back-edge target `G` emitted exactly once. -/
theorem c1_flow_order_ids_unique :
    (∀ root r c, parse_bpmn_xml (.ok root) = (.ok r, c) →
      (r.flow_order.map FlowEntry.id).Nodup)
    ∧ (∀ (es : List (String × Element)) (fs : List (String × SeqFlow))
        (ls : List (String × String)) fuel eo path st, es.length + 1 ≤ fuel →
        traverse_flow es fs ls fuel eo path st
          = traverse_flow es fs ls (es.length + 1) eo path st)
    ∧ ((resultOf cycleDoc).flow_order.map FlowEntry.id = ["S", "G", "A"]
        ∧ ((resultOf cycleDoc).flow_order.map FlowEntry.id).count "G" = 1) := by
  refine ⟨?_, ?_, by decide⟩
  · intro root r c h
    obtain ⟨-, hr, -⟩ := parse_ok_inv h
    subst hr
    rw [buildResult_flow_order, build_flow_order]
    by_cases hse : (startEventIds (buildResult (validProcesses root)).elements).isEmpty
    · rw [if_pos hse]
      simp
    · rw [if_neg hse]
      have := traverse_roots_inv (buildResult (validProcesses root)).elements
        (buildResult (validProcesses root)).flows (buildResult (validProcesses root)).lanes
        (startEventIds (buildResult (validProcesses root)).elements) ([], [])
        ⟨by simp, by simp⟩
      exact this.1
  · intro es fs ls fuel eo path st hf
    have hb : unvisitedCount es st.1 < es.length + 1 :=
      Nat.lt_of_le_of_lt (unvisitedCount_le_length es st.1) (by omega)
    exact traverse_flow_fuel es fs ls fuel (es.length + 1) eo path st (by omega) hb

/-- Witness for C1: the nodup conclusion at `c2doc` and fuel-irrelevance at
concrete arguments. -/
theorem c1_witness :
    ((resultOf c2doc).flow_order.map FlowEntry.id).Nodup
    ∧ traverse_flow [] [] [] 7 none [] ([], []) = traverse_flow [] [] [] 1 none [] ([], []) :=
  ⟨c1_flow_order_ids_unique.1 c2doc (resultOf c2doc) 200 rfl,
   c1_flow_order_ids_unique.2.1 [] [] [] 7 none [] ([], []) (by decide)⟩

/-- A flow-extraction step preserves key distinctness. -/
theorem flowStep_keys_nodup (pid : Option String) (m : List (String × SeqFlow)) (e : XML)
    (h : (akeys m).Nodup) : (akeys (flowStep pid m e)).Nodup := by
  rw [flowStep]
  split
  · exact h
  · split
    · exact h
    · exact akeys_dinsert_nodup m _ _ h

/-- The flow map produced by the extraction has pairwise distinct keys (it is
a Python dict). -/
theorem flows_keys_nodup (procs : List XML) :
    (akeys (procs.foldl extractFlowsProc [])).Nodup := by
  refine foldl_pres (fun m => (akeys m).Nodup) extractFlowsProc
    (fun m p hm => ?_) procs [] (by simp [akeys])
  rw [extractFlowsProc]
  exact foldl_pres (fun m => (akeys m).Nodup) (flowStep (p.get "id"))
    (fun m e hm => flowStep_keys_nodup _ m e hm) _ m hm

/-- A path `p` is an exact flow chain from `s` to `t`: each listed flow id
looks up a flow whose source is the node reached so far, and the last target
is `t`. -/
def chainB (fs : List (String × SeqFlow)) : String → List String → String → Bool
  | s, [], t => s == t
  | s, fid :: rest, t =>
    match alookup fs fid with
    | none => false
    | some fl =>
      fl.source == some s &&
        (match fl.target with
         | none => false
         | some m => chainB fs m rest t)

theorem chainB_snoc (fs : List (String × SeqFlow)) {s m t : String} {p : List String}
    {fid : String} {fl : SeqFlow}
    (hp : chainB fs s p m = true) (hfl : alookup fs fid = some fl)
    (hsrc : fl.source = some m) (htgt : fl.target = some t) :
    chainB fs s (p ++ [fid]) t = true := by
  induction p generalizing s with
  | nil =>
    rw [chainB] at hp
    have hs : s = m := beq_iff_eq.mp hp
    subst hs
    rw [List.nil_append]
    simp [chainB, hfl, hsrc, htgt]
  | cons g rest ihp =>
    rw [chainB] at hp
    cases hg : alookup fs g with
    | none => rw [hg] at hp; cases hp
    | some gl =>
      simp only [hg] at hp
      rw [Bool.and_eq_true] at hp
      cases ht : gl.target with
      | none =>
        have hp2 := hp.2
        simp only [ht] at hp2
        simp at hp2
      | some mm =>
        have hp2 := hp.2
        simp only [ht] at hp2
        rw [List.cons_append, chainB]
        simp only [hg]
        rw [Bool.and_eq_true]
        refine ⟨hp.1, ?_⟩
        simp only [ht]
        exact ihp hp2

/-- Every entry a traversal call adds carries a path that is an exact flow
chain from the root `rt`, provided the call itself was reached along such a
chain. -/
theorem traverse_flow_chain (es : List (String × Element)) (fs : List (String × SeqFlow))
    (ls : List (String × String)) (hnd : (akeys fs).Nodup) (rt : String) :
    ∀ fuel eo path st,
      (∀ e, eo = some e → chainB fs rt path e = true) →
      ∀ en ∈ (traverse_flow es fs ls fuel eo path st).2,
        en ∈ st.2 ∨ chainB fs rt en.path en.id = true := by
  intro fuel
  induction fuel with
  | zero => intro eo path st hpre en hen; exact Or.inl hen
  | succ n ih =>
    intro eo path st hpre en hen
    simp only [traverse_flow] at hen
    cases eo with
    | none => exact Or.inl hen
    | some elem_id =>
      by_cases hc : st.1.contains elem_id
      · simp only [hc, if_true] at hen
        exact Or.inl hen
      · simp only [hc, Bool.false_eq_true, if_false] at hen
        cases hl : alookup es elem_id with
        | none => simp only [hl] at hen; exact Or.inl hen
        | some elem =>
          simp only [hl] at hen
          have hchain0 : chainB fs rt path elem_id = true := hpre elem_id rfl
          have hout : ∀ fid ∈ (fs.filter
                (fun pr => pr.2.source == some elem_id)).map Prod.fst,
              ∀ fl, alookup fs fid = some fl → fl.source = some elem_id := by
            intro fid hfid fl hfl
            rcases List.mem_map.mp hfid with ⟨pr, hpr, hpr1⟩
            rw [List.mem_filter] at hpr
            cases pr with
            | mk a b =>
              simp only at hpr1
              subst hpr1
              have hlook : alookup fs a = some b := alookup_of_mem_nodup hnd hpr.1
              rw [hlook] at hfl
              injection hfl with hfl
              subst hfl
              exact beq_iff_eq.mp hpr.2
          have hfold : ∀ (outs : List String) (st0 : TravSt),
              (∀ fid ∈ outs, ∀ fl, alookup fs fid = some fl → fl.source = some elem_id) →
              (∀ x ∈ st0.2, x ∈ st.2 ∨ chainB fs rt x.path x.id = true) →
              ∀ x ∈ (outs.foldl
                (fun st' fid =>
                  match alookup fs fid with
                  | some fl => traverse_flow es fs ls n fl.target (path ++ [fid]) st'
                  | none => st') st0).2,
                x ∈ st.2 ∨ chainB fs rt x.path x.id = true := by
            intro outs
            induction outs with
            | nil => intro st0 _ h0 x hx; exact h0 x hx
            | cons fid rest iho =>
              intro st0 houts h0 x hx
              rw [List.foldl_cons] at hx
              cases hfl : alookup fs fid with
              | none =>
                rw [hfl] at hx
                exact iho st0 (fun g hg => houts g (List.mem_cons.mpr (Or.inr hg))) h0 x hx
              | some fl =>
                rw [hfl] at hx
                have hsrc : fl.source = some elem_id :=
                  houts fid (List.mem_cons.mpr (Or.inl rfl)) fl hfl
                have hpre1 : ∀ e, fl.target = some e →
                    chainB fs rt (path ++ [fid]) e = true :=
                  fun e he => chainB_snoc fs hchain0 hfl hsrc he
                have h1 : ∀ x ∈ (traverse_flow es fs ls n fl.target (path ++ [fid]) st0).2,
                    x ∈ st.2 ∨ chainB fs rt x.path x.id = true := by
                  intro x hx1
                  rcases ih fl.target (path ++ [fid]) st0 hpre1 x hx1 with hx1 | hx1
                  · exact h0 x hx1
                  · exact Or.inr hx1
                exact iho _ (fun g hg => houts g (List.mem_cons.mpr (Or.inr hg))) h1 x hx
          refine hfold _ _ hout (fun x hx => ?_) en hen
          rcases List.mem_append.mp hx with hx | hx
          · exact Or.inl hx
          · simp only [List.mem_singleton] at hx
            subst hx
            exact Or.inr hchain0

/-- Every entry the multi-root loop adds chains from one of the start
events. -/
theorem traverse_roots_chain (es : List (String × Element)) (fs : List (String × SeqFlow))
    (ls : List (String × String)) (hnd : (akeys fs).Nodup) (roots0 : List String) :
    ∀ roots st, roots ⊆ roots0 →
      (∀ x ∈ st.2, ∃ s ∈ roots0, chainB fs s x.path x.id = true) →
      ∀ x ∈ (traverse_roots es fs ls roots st).2,
        ∃ s ∈ roots0, chainB fs s x.path x.id = true := by
  intro roots
  induction roots with
  | nil => intro st _ h0 x hx; exact h0 x hx
  | cons s rest ih =>
    intro st hsub h0 x hx
    rw [traverse_roots] at hx
    refine ih _ (fun g hg => hsub (List.mem_cons.mpr (Or.inr hg))) (fun y hy => ?_) x hx
    rcases traverse_flow_chain es fs ls hnd s (es.length + 1) (some s) [] st
        (fun e he => by
          injection he with he
          subst he
          simp [chainB]) y hy with hy | hy
    · exact h0 y hy
    · exact ⟨s, hsub (List.mem_cons.mpr (Or.inl rfl)), hy⟩

/-- C10: every `flow_order` entry's `path` is an exact chain of extracted
flow ids leading from one of the start events to the entry's element — the
observable consequence of the traversal copying the path on every emission
(`list(path)`) and building a fresh `path + [flow_id]` per recursive call, so
no sibling branch or later call can corrupt an emitted path. -/
theorem c10_paths_exact (root : XML) (r : BpmnResult) (c : Nat)
    (h : parse_bpmn_xml (.ok root) = (.ok r, c)) :
    ∀ en ∈ r.flow_order, ∃ s ∈ startEventIds r.elements,
      chainB r.flows s en.path en.id = true := by
  obtain ⟨-, hr, -⟩ := parse_ok_inv h
  subst hr
  intro en hen
  rw [buildResult_flow_order, build_flow_order] at hen
  by_cases hse : (startEventIds (buildResult (validProcesses root)).elements).isEmpty
  · rw [if_pos hse] at hen
    simp at hen
  · rw [if_neg hse] at hen
    refine traverse_roots_chain (buildResult (validProcesses root)).elements
      (buildResult (validProcesses root)).flows (buildResult (validProcesses root)).lanes
      ?_ (startEventIds (buildResult (validProcesses root)).elements)
      (startEventIds (buildResult (validProcesses root)).elements) ([], [])
      (fun g hg => hg) (by simp) en hen
    rw [buildResult_flows]
    exact flows_keys_nodup (validProcesses root)

/-- Witness for C10 at `c2doc` and the entry for task `T`. -/
theorem c10_witness :
    ∃ s ∈ startEventIds (resultOf c2doc).elements,
      chainB (resultOf c2doc).flows s ["f1"] "T" = true :=
  c10_paths_exact c2doc (resultOf c2doc) 200 rfl
    ({ id := "T", name := "", type := "task", actor := "N/A", path := ["f1"],
       documentation := "", eventDefinitions := [] } : FlowEntry) (by decide)
